import Mathlib

/-!
Verification development for the version/checkpoint orchestration engine.
The definitions below are shallow embeddings of the TypeScript source: the
operation-settlement poller of the database control-plane client, the
branch-list normalization pipeline over a small JSON model, the
version-restore route handler, the workflow entry points
(initalizeFirstProjectVersion, deleteProject) over an explicit database
state, and the orchestration steps (copyProjectSecrets, requestDevServer).
External services (HTTP, git sandbox, encryption) are modelled as explicit
parameters: an Option result or a Bool success flag per external call, and
abstract encrypt/decrypt functions.
-/

/-! ## Definitions -/

/-- Status set of a control-plane asynchronous operation, from the
OperationStatus union type in the Neon client. -/
inductive OperationStatus
  | scheduling
  | running
  | finished
  | failed
  | cancelling
  | cancelled
  | skipped
deriving DecidableEq, Repr

/-- Direct translation of the helper isTerminalOperationStatus: the poller
stops on finished, skipped and cancelled. -/
def isTerminalOperationStatus (status : OperationStatus) : Bool :=
  status == .finished || status == .skipped || status == .cancelled

/-- Result of one call of the settlement poller. settled carries the status
returned after the given number of sleeps; timedOut is the thrown timeout
error, carrying the last observed status. -/
inductive WaitOutcome
  | settled (status : OperationStatus) (sleeps : Nat)
  | timedOut (lastStatus : OperationStatus) (sleeps : Nat)
deriving DecidableEq, Repr

/-- One poll loop iteration of waitForOperationToSettle, fuelled so that the
recursion is structural. statusAt n is the status fetched on the poll after
n sleeps; fetches are instantaneous and each sleep lasts pollIntervalMs, so
elapsed time at iteration n is n * pollIntervalMs. none means the fuel ran
out before the loop decided (the source loop can diverge when
pollIntervalMs = 0). -/
def waitAux (statusAt : Nat → OperationStatus) (pollIntervalMs timeoutMs : Nat) :
    Nat → Nat → Option WaitOutcome
  | 0, _ => none
  | fuel + 1, n =>
    if isTerminalOperationStatus (statusAt n) then
      some (.settled (statusAt n) n)
    else if n * pollIntervalMs > timeoutMs then
      some (.timedOut (statusAt n) n)
    else
      waitAux statusAt pollIntervalMs timeoutMs fuel (n + 1)

/-- Model of waitForOperationToSettle: run the poll loop from iteration 0
with enough fuel to reach the timeout bound. -/
def waitForOperationToSettle (statusAt : Nat → OperationStatus)
    (pollIntervalMs timeoutMs : Nat) : Option WaitOutcome :=
  waitAux statusAt pollIntervalMs timeoutMs (timeoutMs / pollIntervalMs + 2) 0

/-- Default poll interval of the source: 5000 ms. -/
def defaultPollIntervalMs : Nat := 5000

/-- Default timeout of the source: 5 minutes. -/
def defaultTimeoutMs : Nat := 300000

/-- Minimal JSON value model for the control-plane response payloads. -/
inductive Json where
  | null
  | bool (b : Bool)
  | num (n : Int)
  | str (s : String)
  | arr (items : List Json)
  | obj (fields : List (String × Json))

/-- Property access record[key] on a JSON value: defined for objects, and
none for every non-numeric key on arrays and primitives (matching
JavaScript property access for the keys the client reads). -/
def Json.getField : Json → String → Option Json
  | .obj fields, key => (fields.find? (fun p => p.1 == key)).map (fun p => p.2)
  | _, _ => none

/-- The isRecord guard of the source, as JavaScript evaluates it:
typeof value is "object" and value is not null. Arrays are objects in
JavaScript, so they pass this guard. -/
def Json.isRecordJS : Json → Bool
  | .obj _ => true
  | .arr _ => true
  | _ => false

/-- record[key] is undefined or a string. -/
def stringOrAbsent (v : Option Json) : Bool :=
  match v with
  | none => true
  | some (.str _) => true
  | some _ => false

/-- The four optional branch fields checked by the container guard. -/
def branchFieldKeys : List String := ["id", "name", "created_at", "parent_id"]

/-- Direct translation of isBranchContainer: the value is a record, its four
optional fields are strings or absent, and its branch field, when present,
is a record whose four optional fields are strings or absent. -/
def isBranchContainer (j : Json) : Bool :=
  j.isRecordJS &&
    (branchFieldKeys.all fun k => stringOrAbsent (j.getField k)) &&
    (match j.getField "branch" with
     | none => true
     | some b =>
       b.isRecordJS && (branchFieldKeys.all fun k => stringOrAbsent (b.getField k)))

/-- The four optional string fields readable from a branch object. -/
structure BranchFields where
  id : Option String
  name : Option String
  created_at : Option String
  parent_id : Option String
deriving DecidableEq, Repr

/-- The BranchContainer shape of the source: flat optional fields plus an
optional nested branch record. -/
structure BranchContainer where
  id : Option String
  name : Option String
  created_at : Option String
  parent_id : Option String
  branch : Option BranchFields
deriving DecidableEq, Repr

/-- Read the four optional string fields off a guarded JSON value; after
isBranchContainer, a present field is necessarily a string, so projecting
only string values is exact. -/
def toBranchFields (j : Json) : BranchFields where
  id := match j.getField "id" with | some (.str s) => some s | _ => none
  name := match j.getField "name" with | some (.str s) => some s | _ => none
  created_at :=
    match j.getField "created_at" with | some (.str s) => some s | _ => none
  parent_id :=
    match j.getField "parent_id" with | some (.str s) => some s | _ => none

/-- View a guarded JSON item as the BranchContainer the source's normalize
step reads from. -/
def toBranchContainer (j : Json) : BranchContainer where
  id := (toBranchFields j).id
  name := (toBranchFields j).name
  created_at := (toBranchFields j).created_at
  parent_id := (toBranchFields j).parent_id
  branch := (j.getField "branch").map toBranchFields

/-- Output shape of normalizeBranch: all four fields still optional. -/
structure NormalizedBranch where
  id : Option String
  name : Option String
  created_at : Option String
  parent_id : Option String
deriving DecidableEq, Repr

/-- Direct translation of normalizeBranch: each field is the flat value when
present, else the value nested under branch. -/
def normalizeBranch (c : BranchContainer) : NormalizedBranch where
  id := c.id.or (c.branch.bind BranchFields.id)
  name := c.name.or (c.branch.bind BranchFields.name)
  created_at := c.created_at.or (c.branch.bind BranchFields.created_at)
  parent_id := c.parent_id.or (c.branch.bind BranchFields.parent_id)

/-- Normalized branch with a mandatory id, as produced by getAllBranches. -/
structure Branch where
  id : String
  name : Option String
  created_at : Option String
  parent_id : Option String
deriving DecidableEq, Repr

/-- The isBranch filter after normalization: keep exactly the items whose
normalized id is a string (the other three fields are strings or absent by
construction after normalizeBranch). -/
def toBranch (n : NormalizedBranch) : Option Branch :=
  match n.id with
  | some i => some ⟨i, n.name, n.created_at, n.parent_id⟩
  | none => none

/-- Direct translation of extractBranchContainers: a bare array is filtered
directly; otherwise, for an object, the first of the keys branches, items,
data holding an array value is filtered; anything else yields the empty
list. -/
def extractBranchContainers (input : Json) : List Json :=
  match input with
  | .arr items => items.filter isBranchContainer
  | .obj _ =>
    match input.getField "branches" with
    | some (.arr items) => items.filter isBranchContainer
    | _ =>
      match input.getField "items" with
      | some (.arr items) => items.filter isBranchContainer
      | _ =>
        match input.getField "data" with
        | some (.arr items) => items.filter isBranchContainer
        | _ => []
  | _ => []

/-- Response-normalization pipeline of getAllBranches (the pure part after
the HTTP fetch): extract the containers, normalize each, and keep the ones
with a valid string id. -/
def getAllBranches (json : Json) : List Branch :=
  ((extractBranchContainers json).map
    (fun j => normalizeBranch (toBranchContainer j))).filterMap toBranch

/-- Build a flat branch item: present fields become string-valued keys and
absent fields are omitted from the object. -/
def optField (k : String) : Option String → List (String × Json)
  | none => []
  | some s => [(k, .str s)]

/-- A flat-shaped item carrying the four optional branch fields. -/
def mkFlat (i n c p : Option String) : Json :=
  .obj (optField "id" i ++ optField "name" n ++
    optField "created_at" c ++ optField "parent_id" p)

/-- The same branch data with every field nested under the branch key. -/
def mkNested (i n c p : Option String) : Json :=
  .obj [("branch", mkFlat i n c p)]

/-- Project row (projectsTable). -/
structure Project where
  id : String
  name : String
  repoId : String
  backendType : String
  backendProjectId : Option String
  threadId : String
  userId : String
  currentDevVersionId : Option String
deriving DecidableEq, Repr

/-- Version row (projectVersionsTable). -/
structure ProjectVersion where
  id : String
  projectId : String
  gitCommitHash : String
  neonSnapshotId : String
  assistantMessageId : Option String
  summary : String
deriving DecidableEq, Repr

/-- Secrets row (projectSecretsTable): ciphertext keyed by version id. -/
structure ProjectSecret where
  projectVersionId : String
  secrets : String
deriving DecidableEq, Repr

/-- The three persisted tables the orchestration engine touches. -/
structure Db where
  projects : List Project
  versions : List ProjectVersion
  secrets : List ProjectSecret
deriving DecidableEq, Repr

/-- Translation of getNeonProjectId: the backend project id, none when the
helper would throw (backend type is not neon, or the id is absent or the
empty string, which is falsy in JavaScript). -/
def getNeonProjectId (p : Project) : Option String :=
  if p.backendType = "neon" then
    match p.backendProjectId with
    | some s => if s = "" then none else some s
    | none => none
  else none

/-- The pointer update of setCurrentDevVersion and of the restore route:
unconditional last-write-wins update of currentDevVersionId on the matching
project row. -/
def setProjectPointer (db : Db) (projectId : String)
    (versionId : Option String) : Db :=
  { db with
    projects := db.projects.map fun p =>
      if p.id = projectId then { p with currentDevVersionId := versionId }
      else p }

/-- The restore route's main-branch lookup: the first branch whose name is
main or master, or whose parent id is falsy (absent or empty). -/
def findRestoreTargetBranch (branches : List Branch) : Option Branch :=
  branches.find? fun b =>
    b.name == some "main" || b.name == some "master" ||
      b.parent_id == none || b.parent_id == some ""

/-- Translation of getProductionBranch: the branch named main, falling back
to the branch named production. -/
def getProductionBranch (branches : List Branch) : Option Branch :=
  (branches.find? fun b => b.name == some "main").or
    (branches.find? fun b => b.name == some "production")

/-- External collaborators of the restore route, one result per call: the
authenticated user, and the fallible decrypt-and-parse, dev-server, git
reset, branch listing and snapshot-apply calls. -/
structure RestoreEnv where
  userId : Option String
  decryptParseOk : Bool
  devServerOk : Bool
  gitResetOk : Bool
  branches : Option (List Branch)
  applySnapshotOk : Bool
deriving DecidableEq, Repr

/-- HTTP outcome of the restore route. -/
inductive RestoreOutcome
  | ok (versionId : String)
  | clientError (status : Nat)
  | serverError
deriving DecidableEq, Repr

/-- Result of one restore request: the response, the database afterwards,
and the snapshot application that was issued (snapshot id and target branch
id), if the route reached that call. -/
structure RestoreResult where
  outcome : RestoreOutcome
  db : Db
  snapshotApplied : Option (String × String)
deriving DecidableEq, Repr

/-- Translation of the POST handler of the versions route (restore): auth,
ownership and row lookups, then decrypt, dev server, git reset, backend
check, branch resolution, snapshot application, and only then the pointer
update. Any thrown step yields the 500 branch with the database untouched. -/
def restorePOST (env : RestoreEnv) (db : Db) (projectId versionId : String) :
    RestoreResult :=
  match env.userId with
  | none => ⟨.clientError 401, db, none⟩
  | some uid =>
    match db.projects.find? (fun p => p.id == projectId && p.userId == uid) with
    | none => ⟨.clientError 404, db, none⟩
    | some project =>
      match db.versions.find?
          (fun v => v.id == versionId && v.projectId == projectId) with
      | none => ⟨.clientError 404, db, none⟩
      | some version =>
        match db.secrets.find? (fun s => s.projectVersionId == versionId) with
        | none => ⟨.clientError 404, db, none⟩
        | some _ =>
          if env.decryptParseOk then
            if env.devServerOk then
              if env.gitResetOk then
                if project.backendType = "neon" then
                  match getNeonProjectId project with
                  | none => ⟨.serverError, db, none⟩
                  | some _ =>
                    match env.branches with
                    | none => ⟨.serverError, db, none⟩
                    | some branches =>
                      match findRestoreTargetBranch branches with
                      | none => ⟨.serverError, db, none⟩
                      | some mainBranch =>
                        if mainBranch.id = "" then ⟨.serverError, db, none⟩
                        else if env.applySnapshotOk then
                          ⟨.ok version.id,
                            setProjectPointer db projectId (some version.id),
                            some (version.neonSnapshotId, mainBranch.id)⟩
                        else
                          ⟨.serverError, db,
                            some (version.neonSnapshotId, mainBranch.id)⟩
                else ⟨.serverError, db, none⟩
              else ⟨.serverError, db, none⟩
            else ⟨.serverError, db, none⟩
          else ⟨.serverError, db, none⟩

/-- Sample project row used by the concrete restore scenarios. -/
def sampleProject : Project :=
  ⟨"p1", "proj", "repo-1", "neon", some "np-1", "th-1", "u1", some "v0"⟩

/-- Sample version row to be restored. -/
def sampleVersion : ProjectVersion :=
  ⟨"v1", "p1", "commit-1", "snap1", none, "Manual checkpoint"⟩

/-- Sample database holding the project, the version and its secrets row. -/
def sampleDb : Db :=
  ⟨[sampleProject], [sampleVersion], [⟨"v1", "cipher-1"⟩]⟩

/-- Branch list in which a branch named master precedes the branch named
main; both have a parent. -/
def mainMasterBranches : List Branch :=
  [⟨"br-master", some "master", none, some "p0"⟩,
    ⟨"br-main", some "main", none, some "p0"⟩]

/-- Branch list with a single branch named main. -/
def plainMainBranches : List Branch :=
  [⟨"br-main", some "main", none, some "p0"⟩]

/-- Restore environment in which every external call succeeds. -/
def sampleEnvOk : RestoreEnv :=
  ⟨some "u1", true, true, true, some plainMainBranches, true⟩

/-- Restore environment in which the git reset fails. -/
def sampleEnvGitFail : RestoreEnv :=
  ⟨some "u1", true, true, false, some plainMainBranches, true⟩

/-- Restore environment whose branch list is mainMasterBranches. -/
def sampleEnvMasterFirst : RestoreEnv :=
  ⟨some "u1", true, true, true, some mainMasterBranches, true⟩

/-- One event per step of the deleteProject workflow. -/
inductive DeleteEvent
  | fetchVersionIds
  | clearPointer
  | deleteSecrets
  | deleteVersions
  | deleteRecord
  | deleteRepo
  | destroyBackend
  | deleteThread
deriving DecidableEq, Repr

/-- The three external-resource deletions launched in parallel at the end
of deleteProject (repository, backend project, chat thread). -/
def externalTeardownEvents : List DeleteEvent :=
  [.deleteRepo, .destroyBackend, .deleteThread]

/-- Event trace of one run of deleteProject, in program order: fetch the
version ids, clear the pointer, delete secrets only when versions exist,
delete versions, delete the project record, and then the parallel external
teardown, whose interleaving is an arbitrary permutation passed as tail. -/
def deleteProjectTrace (versionIds : List String) (tail : List DeleteEvent) :
    List DeleteEvent :=
  [.fetchVersionIds, .clearPointer] ++
    (if versionIds.length > 0 then [.deleteSecrets] else []) ++
    [.deleteVersions, .deleteRecord] ++ tail

/-- Translation of the copyProjectSecrets step over the secrets table. The
first secrets row of the source version is looked up; when absent, the step
logs and returns (skip). Otherwise the ciphertext is decrypted and parsed
(abstract fallible decryptParse, none modelling a thrown error, in which
case the step throws), re-encrypted, and one row is inserted for the
destination version. -/
def copyProjectSecrets (encrypt : String → String)
    (decryptParse : String → Option String)
    (secrets : List ProjectSecret) (fromVersionId toVersionId : String) :
    Option (List ProjectSecret) :=
  match secrets.find? (fun s => s.projectVersionId == fromVersionId) with
  | none => some secrets
  | some row =>
    match decryptParse row.secrets with
    | none => none
    | some plain => some (secrets ++ [⟨toVersionId, encrypt plain⟩])

/-- Environment-variable mapping passed to the sandbox. -/
def EnvMap : Type := List (String × String)

/-- External collaborators of requestDevServer: the abstract decrypt+parse
of a stored ciphertext into an environment mapping, and the success flags
of the freestyle dev-server request and of the auth-domain allowlist call. -/
structure DevServerEnv where
  decryptParse : String → Option EnvMap
  freestyleOk : Bool
  addAuthDomainOk : Bool

/-- Observed effect of one requestDevServer call: the environment mapping
the sandbox request was issued with (none when the function threw before
requesting), and whether the call returned normally. -/
structure DevServerCall where
  requestedEnv : Option EnvMap
  ok : Bool

/-- The tail of requestDevServer once the secrets mapping m is determined:
issue the freestyle request with m, then for neon backends resolve the
backend project id (throwing when it is missing) and allowlist the
ephemeral domain. -/
def runFreestyleRequest (env : DevServerEnv) (project : Project)
    (m : EnvMap) : DevServerCall :=
  if env.freestyleOk then
    if project.backendType = "neon" then
      match getNeonProjectId project with
      | none => ⟨some m, false⟩
      | some _ => ⟨some m, env.addAuthDomainOk⟩
    else ⟨some m, true⟩
  else ⟨some m, false⟩

/-- Translation of requestDevServer: use the provided environment variables
when present; otherwise require a current dev version, its secrets row, and
a successful decrypt, and only then request the dev server with the
resulting mapping. Each early throw ends the call with no request made. -/
def requestDevServer (env : DevServerEnv) (project : Project)
    (environmentVariables : Option EnvMap)
    (secrets : List ProjectSecret) : DevServerCall :=
  match environmentVariables with
  | some provided => runFreestyleRequest env project provided
  | none =>
    match project.currentDevVersionId with
    | none => ⟨none, false⟩
    | some vid =>
      match secrets.find? (fun s => s.projectVersionId == vid) with
      | none => ⟨none, false⟩
      | some row =>
        match env.decryptParse row.secrets with
        | none => ⟨none, false⟩
        | some m => runFreestyleRequest env project m

/-- External collaborators of the initialize-first-version workflow, one
result per step call: the production branch lookup, the Neon Auth
initialization, the connection URI, the commit hash and the snapshot id
(none modelling a thrown step); the id the version insert generates, and
the ciphertext the secrets encryption produces. -/
structure InitEnv where
  prodBranch : Option Branch
  neonAuthOk : Bool
  databaseUrl : Option String
  commitHash : Option String
  snapshotId : Option String
  freshVersionId : String
  secretsCipher : String

/-- The getNeonProductionBranch step: propagate the looked-up branch, and
throw (none) when the lookup found nothing or its id is falsy. -/
def getNeonProductionBranchStep (result : Option Branch) : Option Branch :=
  match result with
  | none => none
  | some b => if b.id = "" then none else some b

/-- Translation of the initalizeFirstProjectVersion workflow (source
spelling kept): the backend-type guard, the production-branch step, the
four parallel fetches, the version insert with summary Initial project
setup and a null message reference, and the final parallel fan-out of
secrets insert, pointer update and fire-and-forget warm-up. Returns the
result versionId and the database afterwards, or none when a step threw. -/
def initalizeFirstProjectVersion (env : InitEnv) (db : Db)
    (project : Project) : Option (String × Db) :=
  if project.backendType = "neon" then
    match project.backendProjectId with
    | none => none
    | some bpid =>
      if bpid = "" then none
      else
        match getNeonProductionBranchStep env.prodBranch with
        | none => none
        | some _ =>
          if env.neonAuthOk then
            match env.databaseUrl, env.commitHash, env.snapshotId with
            | some _, some commitHash, some snapshotId =>
              some (env.freshVersionId,
                setProjectPointer
                  ⟨db.projects,
                    db.versions ++
                      [⟨env.freshVersionId, project.id, commitHash,
                        snapshotId, none, "Initial project setup"⟩],
                    db.secrets ++ [⟨env.freshVersionId, env.secretsCipher⟩]⟩
                  project.id (some env.freshVersionId))
            | _, _, _ => none
          else none
  else none

/-- Fresh project for the initialize-first-version scenario: no current
version yet. -/
def initProject : Project :=
  ⟨"p1", "proj", "repo-1", "neon", some "np-1", "th-1", "u1", none⟩

/-- Database holding only the fresh project. -/
def initDb : Db := ⟨[initProject], [], []⟩

/-- Fully successful environment for the initialize-first-version run. -/
def initEnvSample : InitEnv :=
  ⟨some ⟨"br-main", some "main", none, none⟩, true, some "postgres://db",
    some "c0", some "s0", "nv1", "ct0"⟩

/-- Database expected after the successful initialize-first-version run. -/
def initDbAfter : Db :=
  ⟨[⟨"p1", "proj", "repo-1", "neon", some "np-1", "th-1", "u1", some "nv1"⟩],
    [⟨"nv1", "p1", "c0", "s0", none, "Initial project setup"⟩],
    [⟨"nv1", "ct0"⟩]⟩

/-! ## Theorems -/

/-- A settled outcome of the poll loop always carries a status on which
isTerminalOperationStatus holds: the loop only returns through the terminal
branch. -/
lemma waitAux_settled_terminal (statusAt : Nat → OperationStatus)
    (p t : Nat) :
    ∀ fuel n s k, waitAux statusAt p t fuel n = some (.settled s k) →
      isTerminalOperationStatus s = true := by
  intro fuel
  induction fuel with
  | zero => intro n s k h; simp [waitAux] at h
  | succ fuel ih =>
    intro n s k h
    rw [waitAux] at h
    by_cases hterm : isTerminalOperationStatus (statusAt n) = true
    · rw [if_pos hterm] at h
      cases h
      exact hterm
    · rw [if_neg hterm] at h
      by_cases htime : n * p > t
      · rw [if_pos htime] at h
        cases h
      · rw [if_neg htime] at h
        exact ih (n + 1) s k h

/-- If the status fetched on the very first poll is terminal, the loop
returns it with zero sleeps. -/
lemma waitAux_first_terminal (statusAt : Nat → OperationStatus)
    (p t fuel : Nat) (h : isTerminalOperationStatus (statusAt 0) = true) :
    waitAux statusAt p t (fuel + 1) 0 = some (.settled (statusAt 0) 0) := by
  rw [waitAux]
  simp [h]

/-- When no poll ever observes a terminal status and the poll interval is
positive, the loop times out at iteration t / p + 1, the first iteration
whose elapsed time exceeds the timeout. -/
lemma waitAux_never_terminal (statusAt : Nat → OperationStatus) (p t : Nat)
    (hp : 0 < p) (hnt : ∀ n, isTerminalOperationStatus (statusAt n) = false) :
    ∀ fuel n, t / p + 2 ≤ n + fuel → n ≤ t / p + 1 →
      waitAux statusAt p t fuel n =
        some (.timedOut (statusAt (t / p + 1)) (t / p + 1)) := by
  intro fuel
  induction fuel with
  | zero => intro n h1 h2; omega
  | succ fuel ih =>
    intro n h1 h2
    rw [waitAux]
    rw [if_neg (by simp [hnt n])]
    by_cases htime : n * p > t
    · have hgt : t / p < n := by
        by_contra hle
        push_neg at hle
        have h3 : n * p ≤ t / p * p := Nat.mul_le_mul_right p hle
        have h4 : t / p * p ≤ t := Nat.div_mul_le_self t p
        omega
      have hn : n = t / p + 1 := by omega
      rw [if_pos htime, hn]
    · rw [if_neg htime]
      have hle : n ≤ t / p := by
        by_contra hgt2
        push_neg at hgt2
        have h3 : (t / p + 1) * p ≤ n * p :=
          Nat.mul_le_mul_right p (by omega)
        have hx : t < (t / p + 1) * p :=
          (Nat.div_lt_iff_lt_mul hp).1 (Nat.lt_succ_self _)
        omega
      exact ih (n + 1) (by omega) (by omega)

/-- C5: boundary behaviour of waitForOperationToSettle. A call whose first
fetched status is terminal returns immediately, with zero sleeps; a call
that never observes a terminal status within timeoutMs raises the timeout
error carrying the last observed status, which is non-terminal, and never
returns a settled value. -/
theorem waitForOperationToSettle_boundary
    (statusAt : Nat → OperationStatus) (p t : Nat) :
    (isTerminalOperationStatus (statusAt 0) = true →
      waitForOperationToSettle statusAt p t =
        some (.settled (statusAt 0) 0)) ∧
    (0 < p → (∀ n, isTerminalOperationStatus (statusAt n) = false) →
      waitForOperationToSettle statusAt p t =
          some (.timedOut (statusAt (t / p + 1)) (t / p + 1)) ∧
        isTerminalOperationStatus (statusAt (t / p + 1)) = false ∧
        ∀ s k, waitForOperationToSettle statusAt p t ≠
          some (.settled s k)) := by
  constructor
  · intro h
    unfold waitForOperationToSettle
    exact waitAux_first_terminal statusAt p t (t / p + 1) h
  · intro hp hnt
    have hmain : waitForOperationToSettle statusAt p t =
        some (.timedOut (statusAt (t / p + 1)) (t / p + 1)) :=
      waitAux_never_terminal statusAt p t hp hnt (t / p + 2) 0
        (by simp) (Nat.zero_le _)
    refine ⟨hmain, hnt _, ?_⟩
    intro s k hcontra
    rw [hmain] at hcontra
    cases hcontra

/-- Witness for C5 at concrete inputs: with the source defaults
(poll 5000 ms, timeout 300000 ms), a stream that is finished on the first
poll settles with zero sleeps, and a stream that stays running forever
times out carrying running, the last non-terminal status. -/
theorem waitForOperationToSettle_boundary_witness :
    waitForOperationToSettle (fun _ => .finished) 5000 300000 =
        some (.settled .finished 0) ∧
      waitForOperationToSettle (fun _ => .running) 5000 300000 =
        some (.timedOut .running 61) :=
  ⟨(waitForOperationToSettle_boundary (fun _ => .finished) 5000 300000).1
      rfl,
    ((waitForOperationToSettle_boundary (fun _ => .running) 5000 300000).2
      (by decide) (fun _ => rfl)).1⟩

/-- Counterexample for C1 as stated: failed is not in the stop set of the
poller. With every poll returning failed, the call does not stop and return
failed; it keeps polling until the timeout error fires at iteration 61. -/
theorem terminalStatus_failed_counterexample :
    isTerminalOperationStatus .failed = false ∧
      waitForOperationToSettle (fun _ => .failed) 5000 300000 =
        some (.timedOut .failed 61) := by
  constructor
  · rfl
  · decide

/-- C1 amended: the set of statuses on which the poller stops and returns a
value is exactly the finished, skipped and cancelled equality cases; failed
is excluded, so a persistently failed operation is polled until the timeout
error. Every settled outcome carries one of the three statuses, a first-poll
terminal status is returned at once, and the terminal predicate holds for
exactly those three statuses. -/
theorem waitForOperationToSettle_stopSet
    (statusAt : Nat → OperationStatus) (p t : Nat) :
    (∀ s k, waitForOperationToSettle statusAt p t = some (.settled s k) →
      s = .finished ∨ s = .skipped ∨ s = .cancelled) ∧
    (isTerminalOperationStatus (statusAt 0) = true →
      waitForOperationToSettle statusAt p t =
        some (.settled (statusAt 0) 0)) ∧
    (∀ s, isTerminalOperationStatus s = true ↔
      (s = .finished ∨ s = .skipped ∨ s = .cancelled)) := by
  refine ⟨?_, ?_, ?_⟩
  · intro s k h
    have hterm := waitAux_settled_terminal statusAt p t _ 0 s k h
    cases s <;> simp_all [isTerminalOperationStatus]
  · intro h
    exact waitAux_first_terminal statusAt p t (t / p + 1) h
  · intro s
    cases s <;> simp [isTerminalOperationStatus]

/-- Witness for the amended C1 at concrete inputs: a stream that is
cancelled on the first poll stops at once with cancelled, and the outcome
status satisfies the three-way disjunction. -/
theorem waitForOperationToSettle_stopSet_witness :
    waitForOperationToSettle (fun _ => .cancelled) 5000 300000 =
        some (.settled .cancelled 0) ∧
      (OperationStatus.cancelled = .finished ∨
        OperationStatus.cancelled = .skipped ∨
        OperationStatus.cancelled = .cancelled) :=
  ⟨(waitForOperationToSettle_stopSet (fun _ => .cancelled) 5000 300000).2.1
      rfl,
    (waitForOperationToSettle_stopSet (fun _ => .cancelled) 5000 300000).1
      .cancelled 0
      ((waitForOperationToSettle_stopSet (fun _ => .cancelled)
        5000 300000).2.1 rfl)⟩

/-- C9: field precedence in normalizeBranch. For each of the four fields,
the flat top-level value wins whenever it is present, and the value nested
under branch is consulted only when the flat field is absent. -/
theorem normalizeBranch_flat_precedence (c : BranchContainer) :
    ((∀ v, c.id = some v → (normalizeBranch c).id = some v) ∧
      (c.id = none →
        (normalizeBranch c).id = c.branch.bind BranchFields.id)) ∧
    ((∀ v, c.name = some v → (normalizeBranch c).name = some v) ∧
      (c.name = none →
        (normalizeBranch c).name = c.branch.bind BranchFields.name)) ∧
    ((∀ v, c.created_at = some v → (normalizeBranch c).created_at = some v) ∧
      (c.created_at = none →
        (normalizeBranch c).created_at =
          c.branch.bind BranchFields.created_at)) ∧
    ((∀ v, c.parent_id = some v → (normalizeBranch c).parent_id = some v) ∧
      (c.parent_id = none →
        (normalizeBranch c).parent_id =
          c.branch.bind BranchFields.parent_id)) := by
  refine ⟨⟨?_, ?_⟩, ⟨?_, ?_⟩, ⟨?_, ?_⟩, ⟨?_, ?_⟩⟩ <;>
    first
      | (intro v hv; simp [normalizeBranch, hv, Option.or])
      | (intro hv; simp [normalizeBranch, hv, Option.or])

/-- Witness for C9 at a concrete container carrying both a flat id and a
nested id: the flat value is kept; and with the flat name absent, the
nested name is used. -/
theorem normalizeBranch_flat_precedence_witness :
    (normalizeBranch
        ⟨some "flat", none, none, none,
          some ⟨some "nested", some "nn", none, none⟩⟩).id = some "flat" ∧
      (normalizeBranch
        ⟨some "flat", none, none, none,
          some ⟨some "nested", some "nn", none, none⟩⟩).name = some "nn" :=
  ⟨(normalizeBranch_flat_precedence
      ⟨some "flat", none, none, none,
        some ⟨some "nested", some "nn", none, none⟩⟩).1.1 "flat" rfl,
    ((normalizeBranch_flat_precedence
      ⟨some "flat", none, none, none,
        some ⟨some "nested", some "nn", none, none⟩⟩).2.1.2 rfl).trans rfl⟩

/-- C7: getAllBranches is invariant under the three envelope shapes, a
nested item normalizes to the same branch as the equivalent flat item, and
an item whose normalization has no string id contributes nothing to the
output. -/
theorem getAllBranches_shape_invariance :
    (∀ items : List Json,
      getAllBranches (.obj [("branches", .arr items)]) =
          getAllBranches (.arr items) ∧
        getAllBranches (.obj [("items", .arr items)]) =
          getAllBranches (.arr items) ∧
        getAllBranches (.obj [("data", .arr items)]) =
          getAllBranches (.arr items)) ∧
    (∀ i n c p : Option String,
      getAllBranches (.arr [mkNested i n c p]) =
        getAllBranches (.arr [mkFlat i n c p])) ∧
    (∀ item rest, (normalizeBranch (toBranchContainer item)).id = none →
      getAllBranches (.arr (item :: rest)) = getAllBranches (.arr rest)) := by
  refine ⟨?_, ?_, ?_⟩
  · intro items
    exact ⟨rfl, rfl, rfl⟩
  · intro i n c p
    cases i <;> cases n <;> cases c <;> cases p <;> rfl
  · intro item rest hid
    by_cases hg : isBranchContainer item
    · simp [getAllBranches, extractBranchContainers, List.filter_cons, hg,
        List.filterMap_cons, toBranch, hid]
    · simp [getAllBranches, extractBranchContainers, List.filter_cons, hg]

/-- Witness for C7 at concrete payloads: the same single-branch data in all
three envelope shapes and in the nested item shape yields the same single
normalized branch, and an id-less item is dropped. -/
theorem getAllBranches_shape_invariance_witness :
    getAllBranches (.arr [mkFlat (some "br-1") (some "main") none none]) =
        [⟨"br-1", some "main", none, none⟩] ∧
      getAllBranches
          (.obj [("branches",
            .arr [mkFlat (some "br-1") (some "main") none none])]) =
        [⟨"br-1", some "main", none, none⟩] ∧
      getAllBranches (.arr [mkNested (some "br-1") (some "main") none none]) =
        [⟨"br-1", some "main", none, none⟩] ∧
      getAllBranches
          (.arr [Json.obj [("name", Json.str "noid")],
            mkFlat (some "br-1") (some "main") none none]) =
        [⟨"br-1", some "main", none, none⟩] := by
  have hbase :
      getAllBranches (.arr [mkFlat (some "br-1") (some "main") none none]) =
        [⟨"br-1", some "main", none, none⟩] := by decide
  refine ⟨hbase, ?_, ?_, ?_⟩
  · exact ((getAllBranches_shape_invariance.1
      [mkFlat (some "br-1") (some "main") none none]).1).trans hbase
  · exact (getAllBranches_shape_invariance.2.1
      (some "br-1") (some "main") none none).trans hbase
  · exact (getAllBranches_shape_invariance.2.2
      (Json.obj [("name", Json.str "noid")])
      [mkFlat (some "br-1") (some "main") none none] (by decide)).trans hbase

/-- Full case analysis of the restore route: either the request did not
succeed and the database is untouched, or every fallible step succeeded,
the responded version id is the requested row's id, the snapshot was
applied to the branch chosen by findRestoreTargetBranch, and the pointer
was set to the restored version. -/
lemma restorePOST_spec (env : RestoreEnv) (db : Db) (pid vid : String) :
    ((restorePOST env db pid vid).db = db ∧
      ∀ v2, (restorePOST env db pid vid).outcome ≠ .ok v2) ∨
    (∃ version branches mainBranch,
      db.versions.find? (fun v => v.id == vid && v.projectId == pid) =
          some version ∧
      env.branches = some branches ∧
      findRestoreTargetBranch branches = some mainBranch ∧
      env.decryptParseOk = true ∧ env.devServerOk = true ∧
      env.gitResetOk = true ∧ env.applySnapshotOk = true ∧
      (restorePOST env db pid vid).outcome = .ok version.id ∧
      (restorePOST env db pid vid).snapshotApplied =
        some (version.neonSnapshotId, mainBranch.id) ∧
      (restorePOST env db pid vid).db =
        setProjectPointer db pid (some version.id)) := by
  unfold restorePOST
  split
  · exact Or.inl ⟨rfl, fun v2 h => RestoreOutcome.noConfusion h⟩
  next uid hU =>
  split
  · exact Or.inl ⟨rfl, fun v2 h => RestoreOutcome.noConfusion h⟩
  next project hP =>
  split
  · exact Or.inl ⟨rfl, fun v2 h => RestoreOutcome.noConfusion h⟩
  next version hV =>
  split
  · exact Or.inl ⟨rfl, fun v2 h => RestoreOutcome.noConfusion h⟩
  next secretRow hS =>
  split
  case isFalse => exact Or.inl ⟨rfl, fun v2 h => RestoreOutcome.noConfusion h⟩
  next hD =>
  split
  case isFalse => exact Or.inl ⟨rfl, fun v2 h => RestoreOutcome.noConfusion h⟩
  next hDS =>
  split
  case isFalse => exact Or.inl ⟨rfl, fun v2 h => RestoreOutcome.noConfusion h⟩
  next hG =>
  split
  case isFalse => exact Or.inl ⟨rfl, fun v2 h => RestoreOutcome.noConfusion h⟩
  next hBT =>
  split
  · exact Or.inl ⟨rfl, fun v2 h => RestoreOutcome.noConfusion h⟩
  next npid hN =>
  split
  · exact Or.inl ⟨rfl, fun v2 h => RestoreOutcome.noConfusion h⟩
  next branches hB =>
  split
  · exact Or.inl ⟨rfl, fun v2 h => RestoreOutcome.noConfusion h⟩
  next mainBranch hT =>
  split
  case isTrue => exact Or.inl ⟨rfl, fun v2 h => RestoreOutcome.noConfusion h⟩
  next hId =>
  split
  case isFalse => exact Or.inl ⟨rfl, fun v2 h => RestoreOutcome.noConfusion h⟩
  next hA =>
  exact Or.inr ⟨version, branches, mainBranch, hV, hB, hT, hD, hDS, hG, hA,
    rfl, rfl, rfl⟩

/-- C3: pointer atomicity of the restore route. A request that does not
succeed leaves the database, and so the currentDevVersionId pointer,
untouched; a successful request had every fallible step (secrets decrypt,
dev server, git reset, snapshot apply) succeed, and only then is the
pointer set, to exactly the restored version's id. -/
theorem restorePOST_pointer_atomicity (env : RestoreEnv) (db : Db)
    (pid vid : String) :
    ((∀ v2, (restorePOST env db pid vid).outcome ≠ .ok v2) →
      (restorePOST env db pid vid).db = db) ∧
    (∀ v2, (restorePOST env db pid vid).outcome = .ok v2 →
      env.decryptParseOk = true ∧ env.devServerOk = true ∧
      env.gitResetOk = true ∧ env.applySnapshotOk = true ∧
      ∃ version,
        db.versions.find? (fun v => v.id == vid && v.projectId == pid) =
            some version ∧
        v2 = version.id ∧
        (restorePOST env db pid vid).db =
          setProjectPointer db pid (some version.id)) := by
  rcases restorePOST_spec env db pid vid with ⟨hdb, hnot⟩ |
    ⟨version, branches, mainBranch, hV, hB, hT, hD, hDS, hG, hA, hout,
      happ, hdb⟩
  · exact ⟨fun _ => hdb, fun v2 h => absurd h (hnot v2)⟩
  · constructor
    · intro hno
      exact absurd hout (hno version.id)
    · intro v2 h
      rw [hout] at h
      cases h
      exact ⟨hD, hDS, hG, hA, version, hV, rfl, hdb⟩

/-- Witness for C3 at concrete inputs: a restore whose git reset fails
leaves the sample database unchanged, and a fully successful restore sets
the pointer of project p1 to the restored version id v1. -/
theorem restorePOST_pointer_atomicity_witness :
    (restorePOST sampleEnvGitFail sampleDb "p1" "v1").db = sampleDb ∧
      (∃ version,
        sampleDb.versions.find?
            (fun v => v.id == "v1" && v.projectId == "p1") = some version ∧
        ("v1" : String) = version.id ∧
        (restorePOST sampleEnvOk sampleDb "p1" "v1").db =
          setProjectPointer sampleDb "p1" (some version.id)) := by
  constructor
  · apply (restorePOST_pointer_atomicity sampleEnvGitFail sampleDb
      "p1" "v1").1
    intro v2 hcon
    have hout : (restorePOST sampleEnvGitFail sampleDb "p1" "v1").outcome =
        .serverError := by decide
    rw [hout] at hcon
    exact RestoreOutcome.noConfusion hcon
  · exact ((restorePOST_pointer_atomicity sampleEnvOk sampleDb
      "p1" "v1").2 "v1" (by decide)).2.2.2.2

/-- Counterexample for C2 as stated: the restore route does not resolve the
target branch as main with fallback production. With a branch named master
listed before the branch named main, the snapshot is applied to the master
branch, while the main-then-production rule of getProductionBranch selects
the main branch. -/
theorem restore_targetBranch_counterexample :
    (restorePOST sampleEnvMasterFirst sampleDb "p1" "v1").snapshotApplied =
        some ("snap1", "br-master") ∧
      (getProductionBranch mainMasterBranches).map Branch.id =
        some "br-main" ∧
      ("br-master" : String) ≠ "br-main" := by decide

/-- C2 amended: on every successful restore, the target branch is resolved
as the first listed branch whose name is main or master or whose parent id
is falsy (absent or empty), and the restored version's snapshot id is
applied to that branch. -/
theorem restorePOST_resolves_target (env : RestoreEnv) (db : Db)
    (pid vid : String) :
    ∀ v2, (restorePOST env db pid vid).outcome = .ok v2 →
      ∃ version branches mainBranch,
        db.versions.find? (fun v => v.id == vid && v.projectId == pid) =
            some version ∧
        env.branches = some branches ∧
        branches.find?
            (fun b => b.name == some "main" || b.name == some "master" ||
              b.parent_id == none || b.parent_id == some "") =
          some mainBranch ∧
        (restorePOST env db pid vid).snapshotApplied =
          some (version.neonSnapshotId, mainBranch.id) := by
  intro v2 h
  rcases restorePOST_spec env db pid vid with ⟨hdb, hnot⟩ |
    ⟨version, branches, mainBranch, hV, hB, hT, hD, hDS, hG, hA, hout,
      happ, hdb⟩
  · exact absurd h (hnot v2)
  · exact ⟨version, branches, mainBranch, hV, hB, hT, happ⟩

/-- Witness for the amended C2: on the concrete master-before-main branch
list the successful restore applies snapshot snap1 to the master branch. -/
theorem restorePOST_resolves_target_witness :
    ∃ version branches mainBranch,
      sampleDb.versions.find?
          (fun v => v.id == "v1" && v.projectId == "p1") = some version ∧
      sampleEnvMasterFirst.branches = some branches ∧
      branches.find?
          (fun b => b.name == some "main" || b.name == some "master" ||
            b.parent_id == none || b.parent_id == some "") =
        some mainBranch ∧
      (restorePOST sampleEnvMasterFirst sampleDb "p1" "v1").snapshotApplied =
        some (version.neonSnapshotId, mainBranch.id) :=
  restorePOST_resolves_target sampleEnvMasterFirst sampleDb "p1" "v1"
    "v1" (by decide)

/-- An index into pre ++ tail lands either in pre, at the same index, or
in tail. -/
lemma trace_get_cases (pre tail : List DeleteEvent) (i : Nat)
    (h : i < (pre ++ tail).length) :
    (∃ hp : i < pre.length, (pre ++ tail).get ⟨i, h⟩ = pre.get ⟨i, hp⟩) ∨
    (pre.length ≤ i ∧ (pre ++ tail).get ⟨i, h⟩ ∈ tail) := by
  by_cases hp : i < pre.length
  · left
    refine ⟨hp, ?_⟩
    rw [List.get_eq_getElem, List.get_eq_getElem, List.getElem_append_left]
  · right
    push_neg at hp
    refine ⟨hp, ?_⟩
    rw [List.get_eq_getElem, List.getElem_append_right hp]
    exact List.getElem_mem _

/-- Ordering facts for a trace of the shape pre ++ tail when every tail
event is an external teardown event and the positions of clearPointer,
deleteVersions and deleteRecord inside pre are constrained as in the
workflow. -/
lemma ordered_pre_tail (pre tail : List DeleteEvent)
    (htail : ∀ e ∈ tail, e ∈ externalTeardownEvents)
    (hclear : ∀ k (hk : k < pre.length),
      pre.get ⟨k, hk⟩ = .clearPointer → k = 1)
    (hvers : ∀ k (hk : k < pre.length),
      pre.get ⟨k, hk⟩ = .deleteVersions → 2 ≤ k)
    (hrec : ∀ k (hk : k < pre.length),
      pre.get ⟨k, hk⟩ = .deleteRecord → k + 1 = pre.length)
    (hnoext : ∀ k (hk : k < pre.length),
      pre.get ⟨k, hk⟩ ∉ externalTeardownEvents) :
    (∀ i j (hi : i < (pre ++ tail).length) (hj : j < (pre ++ tail).length),
      (pre ++ tail).get ⟨i, hi⟩ = .clearPointer →
      (pre ++ tail).get ⟨j, hj⟩ = .deleteVersions → i < j) ∧
    (∀ i j (hi : i < (pre ++ tail).length) (hj : j < (pre ++ tail).length),
      (pre ++ tail).get ⟨i, hi⟩ = .deleteRecord →
      (pre ++ tail).get ⟨j, hj⟩ ∈ externalTeardownEvents → i < j) := by
  constructor
  · intro i j hi hj hci hvj
    rcases trace_get_cases pre tail i hi with ⟨hp, he⟩ | ⟨hge, hmem⟩
    · rcases trace_get_cases pre tail j hj with ⟨hp2, he2⟩ | ⟨hge2, hmem2⟩
      · have h1 : i = 1 := hclear i hp (he ▸ hci)
        have h2 : 2 ≤ j := hvers j hp2 (he2 ▸ hvj)
        omega
      · have h1 : i = 1 := hclear i hp (he ▸ hci)
        omega
    · have hx := htail _ (hci ▸ hmem)
      simp [externalTeardownEvents] at hx
  · intro i j hi hj hri hej
    rcases trace_get_cases pre tail i hi with ⟨hp, he⟩ | ⟨hge, hmem⟩
    · rcases trace_get_cases pre tail j hj with ⟨hp2, he2⟩ | ⟨hge2, hmem2⟩
      · exact absurd (he2 ▸ hej) (hnoext j hp2)
      · have h1 : i + 1 = pre.length := hrec i hp (he ▸ hri)
        omega
    · have hx := htail _ (hri ▸ hmem)
      simp [externalTeardownEvents] at hx

/-- C6: in every run of deleteProject, every occurrence of clearPointer
precedes every occurrence of deleteVersions, and every occurrence of
deleteRecord precedes every external-teardown event, for every interleaving
of the parallel teardown; all those events do occur, and deleteSecrets
occurs exactly when the project has versions. -/
theorem deleteProject_order (versionIds : List String)
    (tail : List DeleteEvent) (hperm : tail.Perm externalTeardownEvents) :
    (∀ i j (hi : i < (deleteProjectTrace versionIds tail).length)
        (hj : j < (deleteProjectTrace versionIds tail).length),
      (deleteProjectTrace versionIds tail).get ⟨i, hi⟩ = .clearPointer →
      (deleteProjectTrace versionIds tail).get ⟨j, hj⟩ = .deleteVersions →
      i < j) ∧
    (∀ i j (hi : i < (deleteProjectTrace versionIds tail).length)
        (hj : j < (deleteProjectTrace versionIds tail).length),
      (deleteProjectTrace versionIds tail).get ⟨i, hi⟩ = .deleteRecord →
      (deleteProjectTrace versionIds tail).get ⟨j, hj⟩ ∈
        externalTeardownEvents → i < j) ∧
    (DeleteEvent.clearPointer ∈ deleteProjectTrace versionIds tail ∧
      DeleteEvent.deleteVersions ∈ deleteProjectTrace versionIds tail ∧
      DeleteEvent.deleteRecord ∈ deleteProjectTrace versionIds tail ∧
      ∀ e ∈ externalTeardownEvents, e ∈ deleteProjectTrace versionIds tail) ∧
    (DeleteEvent.deleteSecrets ∈ deleteProjectTrace versionIds tail ↔
      versionIds ≠ []) := by
  have htail : ∀ e ∈ tail, e ∈ externalTeardownEvents :=
    fun e he => hperm.mem_iff.1 he
  rcases Nat.eq_zero_or_pos versionIds.length with hv | hv
  · have hnil : versionIds = [] := List.length_eq_zero.1 hv
    have htr : deleteProjectTrace versionIds tail =
        [.fetchVersionIds, .clearPointer, .deleteVersions,
          .deleteRecord] ++ tail := by
      simp [deleteProjectTrace, hnil]
    rw [htr]
    obtain ⟨hA, hB⟩ := ordered_pre_tail
      [.fetchVersionIds, .clearPointer, .deleteVersions, .deleteRecord] tail
      htail (by decide) (by decide) (by decide) (by decide)
    refine ⟨hA, hB, ⟨by simp, by simp, by simp, ?_⟩, ?_⟩
    · intro e he
      exact List.mem_append_right _ (hperm.mem_iff.2 he)
    · constructor
      · intro hmem
        rcases List.mem_append.1 hmem with hpre | htl
        · simp at hpre
        · have hx := htail _ htl
          simp [externalTeardownEvents] at hx
      · intro hne
        exact absurd hnil hne
  · have htr : deleteProjectTrace versionIds tail =
        [.fetchVersionIds, .clearPointer, .deleteSecrets, .deleteVersions,
          .deleteRecord] ++ tail := by
      simp [deleteProjectTrace, hv]
    rw [htr]
    obtain ⟨hA, hB⟩ := ordered_pre_tail
      [.fetchVersionIds, .clearPointer, .deleteSecrets, .deleteVersions,
        .deleteRecord] tail
      htail (by decide) (by decide) (by decide) (by decide)
    refine ⟨hA, hB, ⟨by simp, by simp, by simp, ?_⟩, ?_⟩
    · intro e he
      exact List.mem_append_right _ (hperm.mem_iff.2 he)
    · constructor
      · intro _
        intro hnil
        rw [hnil] at hv
        simp at hv
      · intro _
        simp

/-- Witness for C6 at a concrete run: with one version id and the teardown
events in declaration order, the trace is the expected eight events, the
pointer clear at index 1 precedes the version deletion at index 3, and the
record deletion at index 4 precedes the repository deletion at index 5. -/
theorem deleteProject_order_witness :
    deleteProjectTrace ["v1"] externalTeardownEvents =
        [.fetchVersionIds, .clearPointer, .deleteSecrets, .deleteVersions,
          .deleteRecord, .deleteRepo, .destroyBackend, .deleteThread] ∧
      (1 : Nat) < 3 ∧ (4 : Nat) < 5 :=
  ⟨by decide,
    (deleteProject_order ["v1"] externalTeardownEvents (List.Perm.refl _)).1
      1 3 (by decide) (by decide) (by decide) (by decide),
    (deleteProject_order ["v1"] externalTeardownEvents
        (List.Perm.refl _)).2.1
      4 5 (by decide) (by decide) (by decide) (by decide)⟩

/-- C8: when no secrets row exists for the source version,
copyProjectSecrets returns without throwing and without touching the table,
so the destination version gains no rows; when a source row exists and
decrypts, exactly one row is inserted for the destination and its
ciphertext is the re-encryption of the decrypted source bundle. -/
theorem copyProjectSecrets_missing_source (encrypt : String → String)
    (decryptParse : String → Option String) (secrets : List ProjectSecret)
    (fromV toV : String) :
    (secrets.find? (fun s => s.projectVersionId == fromV) = none →
      copyProjectSecrets encrypt decryptParse secrets fromV toV =
          some secrets ∧
        ∀ db2,
          copyProjectSecrets encrypt decryptParse secrets fromV toV =
            some db2 →
          db2.filter (fun s => s.projectVersionId == toV) =
            secrets.filter (fun s => s.projectVersionId == toV)) ∧
    (∀ row plain,
      secrets.find? (fun s => s.projectVersionId == fromV) = some row →
      decryptParse row.secrets = some plain →
      copyProjectSecrets encrypt decryptParse secrets fromV toV =
          some (secrets ++ [(⟨toV, encrypt plain⟩ : ProjectSecret)]) ∧
        (secrets ++ [(⟨toV, encrypt plain⟩ : ProjectSecret)]).filter
            (fun s => s.projectVersionId == toV) =
          secrets.filter (fun s => s.projectVersionId == toV) ++
            [(⟨toV, encrypt plain⟩ : ProjectSecret)]) := by
  constructor
  · intro hnone
    have h1 : copyProjectSecrets encrypt decryptParse secrets fromV toV =
        some secrets := by
      simp only [copyProjectSecrets, hnone]
    refine ⟨h1, ?_⟩
    intro db2 h
    rw [h1] at h
    cases h
    rfl
  · intro row plain hrow hplain
    refine ⟨?_, ?_⟩
    · simp only [copyProjectSecrets, hrow, hplain]
    · rw [List.filter_append]
      simp

/-- Witness for C8 at concrete inputs: copying from a nonexistent version
leaves the table unchanged and the destination with zero rows; copying from
v0 inserts exactly the one re-encrypted row for the destination. -/
theorem copyProjectSecrets_missing_source_witness :
    copyProjectSecrets (fun s => "enc-" ++ s) (fun s => some ("pt-" ++ s))
        [⟨"v0", "ct0"⟩] "nonexistent-version" "new-version" =
          some [⟨"v0", "ct0"⟩] ∧
      copyProjectSecrets (fun s => "enc-" ++ s) (fun s => some ("pt-" ++ s))
        [⟨"v0", "ct0"⟩] "v0" "new-version" =
          some [⟨"v0", "ct0"⟩, ⟨"new-version", "enc-pt-ct0"⟩] :=
  ⟨((copyProjectSecrets_missing_source (fun s => "enc-" ++ s)
      (fun s => some ("pt-" ++ s)) [⟨"v0", "ct0"⟩] "nonexistent-version"
      "new-version").1 (by decide)).1,
    ((copyProjectSecrets_missing_source (fun s => "enc-" ++ s)
      (fun s => some ("pt-" ++ s)) [⟨"v0", "ct0"⟩] "v0"
      "new-version").2 ⟨"v0", "ct0"⟩ "pt-ct0" (by decide) rfl).1⟩

/-- The freestyle request is always issued with exactly the mapping that
was determined for it. -/
lemma runFreestyleRequest_requestedEnv (env : DevServerEnv)
    (project : Project) (m : EnvMap) :
    (runFreestyleRequest env project m).requestedEnv = some m := by
  unfold runFreestyleRequest
  split
  · split
    · split <;> rfl
    · rfl
  · rfl

/-- C10: requestDevServer without explicit environment variables throws
when the project has no current dev version or no secrets row for it, in
both cases without issuing any sandbox request; and whenever a sandbox
request is issued, its environment is exactly the caller-provided mapping
or the decrypt of the current version's stored secrets. -/
theorem requestDevServer_env_guard (env : DevServerEnv) (project : Project)
    (secrets : List ProjectSecret) :
    (project.currentDevVersionId = none →
      requestDevServer env project none secrets = ⟨none, false⟩) ∧
    (∀ vid, project.currentDevVersionId = some vid →
      secrets.find? (fun s => s.projectVersionId == vid) = none →
      requestDevServer env project none secrets = ⟨none, false⟩) ∧
    (∀ evs m,
      (requestDevServer env project evs secrets).requestedEnv = some m →
      evs = some m ∨
        ∃ vid row,
          project.currentDevVersionId = some vid ∧
          secrets.find? (fun s => s.projectVersionId == vid) = some row ∧
          env.decryptParse row.secrets = some m) := by
  refine ⟨?_, ?_, ?_⟩
  · intro hptr
    simp only [requestDevServer, hptr]
  · intro vid hptr hrow
    simp only [requestDevServer, hptr, hrow]
  · intro evs m hreq
    cases evs with
    | some provided =>
      left
      simp only [requestDevServer] at hreq
      rw [runFreestyleRequest_requestedEnv] at hreq
      cases hreq
      rfl
    | none =>
      right
      cases hptr : project.currentDevVersionId with
      | none =>
        simp only [requestDevServer, hptr] at hreq
        exact Option.noConfusion hreq
      | some vid =>
        cases hrow : secrets.find? (fun s => s.projectVersionId == vid) with
        | none =>
          simp only [requestDevServer, hptr, hrow] at hreq
          exact Option.noConfusion hreq
        | some row =>
          cases hdec : env.decryptParse row.secrets with
          | none =>
            simp only [requestDevServer, hptr, hrow, hdec] at hreq
            exact Option.noConfusion hreq
          | some m0 =>
            simp only [requestDevServer, hptr, hrow, hdec,
              runFreestyleRequest_requestedEnv] at hreq
            cases hreq
            exact ⟨vid, row, rfl, hrow, hdec⟩

/-- Witness for C10 at concrete inputs: with no pointer the call throws
without a request; with a pointer but no secrets row it throws without a
request; and a request made with caller-provided variables used exactly
those variables. -/
theorem requestDevServer_env_guard_witness :
    requestDevServer ⟨fun _ => some [("K", "V")], true, true⟩
        ⟨"p1", "proj", "repo-1", "neon", some "np-1", "th-1", "u1", none⟩
        none [] = ⟨none, false⟩ ∧
      requestDevServer ⟨fun _ => some [("K", "V")], true, true⟩
        sampleProject none [] = ⟨none, false⟩ ∧
      (some [("A", "B")] = some [("A", "B")] ∨
        ∃ vid row,
          sampleProject.currentDevVersionId = some vid ∧
          ([] : List ProjectSecret).find?
              (fun s => s.projectVersionId == vid) = some row ∧
          (fun _ => some [("K", "V")] : String → Option EnvMap) row.secrets =
            some [("A", "B")]) :=
  ⟨(requestDevServer_env_guard ⟨fun _ => some [("K", "V")], true, true⟩
      ⟨"p1", "proj", "repo-1", "neon", some "np-1", "th-1", "u1", none⟩
      []).1 rfl,
    (requestDevServer_env_guard ⟨fun _ => some [("K", "V")], true, true⟩
      sampleProject []).2.1 "v0" rfl rfl,
    (requestDevServer_env_guard ⟨fun _ => some [("K", "V")], true, true⟩
      sampleProject []).2.2 (some [("A", "B")]) [("A", "B")] rfl⟩

/-- C4: when the initialize-first-version workflow succeeds on a project
whose row is in the database and with a fresh generated version id, the
project's currentDevVersionId points at the returned version id, every
project row with that id carries the pointer, and the pointed-at version id
matches exactly one version row, which has a null assistant message
reference and summary Initial project setup. -/
theorem initalizeFirstProjectVersion_spec (env : InitEnv) (db : Db)
    (project : Project)
    (hfresh : ∀ v ∈ db.versions, v.id ≠ env.freshVersionId)
    (hmem : project ∈ db.projects) :
    ∀ vid db2,
      initalizeFirstProjectVersion env db project = some (vid, db2) →
      (∃ p, p ∈ db2.projects ∧ p.id = project.id ∧
        p.currentDevVersionId = some vid) ∧
      (∀ p ∈ db2.projects, p.id = project.id →
        p.currentDevVersionId = some vid) ∧
      (∃ commitHash snapshotId,
        db2.versions.filter (fun v => v.id == vid) =
          [⟨vid, project.id, commitHash, snapshotId, none,
            "Initial project setup"⟩]) := by
  intro vid db2 h
  unfold initalizeFirstProjectVersion at h
  repeat' split at h
  all_goals try exact Option.noConfusion h
  injection h with h2
  injection h2 with h3 h4
  subst h3
  subst h4
  rename_i dbUrl commitHash snapshotId hdbu hch hsi
  refine ⟨?_, ?_, ?_⟩
  · refine ⟨{ project with currentDevVersionId := some env.freshVersionId },
      ?_, rfl, rfl⟩
    simp only [setProjectPointer]
    have hfp : ({ project with
        currentDevVersionId := some env.freshVersionId } : Project) =
        (fun p => if p.id = project.id then
          { p with currentDevVersionId := some env.freshVersionId }
          else p) project := by
      simp
    rw [hfp]
    exact List.mem_map_of_mem _ hmem
  · intro p hp hid
    simp only [setProjectPointer, List.mem_map] at hp
    obtain ⟨q, hq, rfl⟩ := hp
    by_cases hqid : q.id = project.id
    · rw [if_pos hqid]
    · rw [if_neg hqid] at hid ⊢
      exact absurd hid hqid
  · refine ⟨commitHash, snapshotId, ?_⟩
    simp only [setProjectPointer]
    rw [List.filter_append]
    have hnil :
        db.versions.filter (fun v => v.id == env.freshVersionId) = [] := by
      rw [List.filter_eq_nil_iff]
      intro v hv
      simp [hfresh v hv]
    rw [hnil]
    simp

/-- Witness for C4 at the concrete scenario: after the successful run, some
project row with the project's id points at nv1, and nv1 matches exactly
one version row, carrying a null message reference and the initial
summary. -/
theorem initalizeFirstProjectVersion_spec_witness :
    (∃ p, p ∈ initDbAfter.projects ∧ p.id = "p1" ∧
      p.currentDevVersionId = some "nv1") ∧
      (∃ commitHash snapshotId,
        initDbAfter.versions.filter (fun v => v.id == "nv1") =
          [⟨"nv1", "p1", commitHash, snapshotId, none,
            "Initial project setup"⟩]) :=
  ⟨(initalizeFirstProjectVersion_spec initEnvSample initDb initProject
      (by simp [initDb]) (by simp [initDb, List.mem_singleton])
      "nv1" initDbAfter (by decide)).1,
    (initalizeFirstProjectVersion_spec initEnvSample initDb initProject
      (by simp [initDb]) (by simp [initDb, List.mem_singleton])
      "nv1" initDbAfter (by decide)).2.2⟩
